import Mathlib

/-!
Verification of the penrose pure window-manager core.

The repository ships only the rustdoc index (`src/rustdoc/penrose/sidebar-items.js`),
which names the public items (`Error`, the `custom_error` and `stack` construction
helpers, `Xid`, `Result`, and the `pure` module of side-effect free state
management).  The implementation itself is not under `src/`, so every definition
below is modelled from the natural-language specification (`spec.md`), faithful to
its words, as indicated by the doc comments.
-/

namespace Penrose

/-- Modelled from the spec: `Xid` is an opaque, totally-ordered, hashable handle to
a server-side window resource, assigned externally.  We model it as a natural
number. -/
abbrev Xid := Nat

/-- Modelled from the spec: `Rect` is `{x, y, width, height}` in screen-pixel
coordinates; an immutable value. -/
structure Rect where
  x : Nat
  y : Nat
  width : Nat
  height : Nat
  deriving DecidableEq, Repr

/-- Modelled from the spec: the error taxonomy of the core.  The four kinds named
in §7 are `DuplicateWindow`, `UnknownWindow`, `UnknownTag` and
`InvalidLayoutIndex`; the rustdoc index additionally documents a `custom_error`
construction helper for a user-constructible `Error::Custom` variant. -/
inductive Error where
  | DuplicateWindow : Error
  | UnknownWindow : Error
  | UnknownTag : Error
  | InvalidLayoutIndex : Error
  | Custom : String → Error
  deriving DecidableEq, Repr

/-- Modelled from the spec: `Stack<T>` is `{up, focus, down}` with `up` and `down`
nearest-first; the full ordered sequence is `reverse(up) ++ [focus] ++ down`.
A Stack is never empty: the `focus` field is mandatory. -/
structure Stack where
  up : List Xid
  focus : Xid
  down : List Xid
  deriving DecidableEq, Repr

namespace Stack

/-- Modelled from the spec: the full ordered sequence of a Stack is
`reverse(up) ++ [focus] ++ down`. -/
def toList (s : Stack) : List Xid :=
  s.up.reverse ++ s.focus :: s.down

/-- Modelled from the spec: membership of an identifier anywhere in the stack
(in `up`, `focus`, or `down`), as a boolean test. -/
def contains (s : Stack) (x : Xid) : Bool :=
  s.up.contains x || s.focus == x || s.down.contains x

/-- Modelled from the spec: `insert(s, x)` inserts `x` as the new focus, pushing
the previous focus onto `down`; fails with `DuplicateWindow` if `x` is already
present anywhere in the stack. -/
def insert (s : Stack) (x : Xid) : Except Error Stack :=
  if s.contains x then .error .DuplicateWindow
  else .ok ⟨s.up, x, s.focus :: s.down⟩

/-- Modelled from the spec: `remove(s, x)` removes `x`; if `x` was the focus, the
focus becomes the nearest element from `down`, else from `up`, else the Stack
becomes empty (represented as `none`); a no-op returning the stack unchanged if
`x` is absent. -/
def remove (s : Stack) (x : Xid) : Option Stack :=
  if s.focus = x then
    match s.down with
    | d :: ds => some ⟨s.up, d, ds⟩
    | [] =>
      match s.up with
      | u :: us => some ⟨us, u, []⟩
      | [] => none
  else if x ∈ s.up then some ⟨s.up.erase x, s.focus, s.down⟩
  else if x ∈ s.down then some ⟨s.up, s.focus, s.down.erase x⟩
  else some s

/-- Modelled from the spec: `focus_next` rotates the focus forward one position,
wrapping circularly across the full ordered sequence; a no-op on a single-element
Stack. -/
def focus_next (s : Stack) : Stack :=
  match s.down with
  | d :: ds => ⟨s.focus :: s.up, d, ds⟩
  | [] =>
    match s.up.reverse with
    | [] => s
    | h :: t => ⟨[], h, t ++ [s.focus]⟩

/-- Modelled from the spec: `focus_prev` rotates the focus backward one position,
wrapping circularly across the full ordered sequence; a no-op on a single-element
Stack. -/
def focus_prev (s : Stack) : Stack :=
  match s.up with
  | u :: us => ⟨us, u, s.focus :: s.down⟩
  | [] =>
    match s.down.reverse with
    | [] => s
    | l :: rest => ⟨rest ++ [s.focus], l, []⟩

/-- Modelled from the spec: `swap_focus_next` exchanges the focus's position with
its following neighbour without changing which element is focused. -/
def swap_focus_next (s : Stack) : Stack :=
  match s.down with
  | d :: ds => ⟨d :: s.up, s.focus, ds⟩
  | [] => s

/-- Modelled from the spec: `swap_focus_prev` exchanges the focus's position with
its preceding neighbour without changing which element is focused. -/
def swap_focus_prev (s : Stack) : Stack :=
  match s.up with
  | u :: us => ⟨us, s.focus, u :: s.down⟩
  | [] => s

/-- Modelled from the spec: `focus_on(s, x)` re-centers the focus on `x` if it is
present, stepping the focus forward until `x` is reached. -/
def focus_on (s : Stack) (x : Xid) : Option Stack :=
  if s.contains x then some (go s s.toList.length) else none
where
  /-- Step the focus forward at most `n` times until `x` is the focus. -/
  go (s : Stack) : Nat → Stack
    | 0 => s
    | n + 1 => if s.focus = x then s else go s.focus_next n

theorem contains_iff_mem_toList (s : Stack) (x : Xid) :
    s.contains x = true ↔ x ∈ s.toList := by
  simp only [contains, toList, List.contains, List.mem_append, List.mem_cons,
    List.mem_reverse, Bool.or_eq_true, List.elem_iff, beq_iff_eq]
  constructor
  · rintro ((h | h) | h)
    · exact Or.inl h
    · exact Or.inr (Or.inl h.symm)
    · exact Or.inr (Or.inr h)
  · rintro (h | h | h)
    · exact Or.inl (Or.inl h)
    · exact Or.inl (Or.inr h.symm)
    · exact Or.inr h

/-- Modelled from the spec: the linearization of an optional Stack, empty when the
Stack has been destroyed (`none`). -/
def optToList (o : Option Stack) : List Xid :=
  (o.map toList).getD []

theorem optToList_none : optToList none = [] := rfl

theorem optToList_some (s : Stack) : optToList (some s) = s.toList := rfl

theorem toList_ne_nil (s : Stack) : s.toList ≠ [] := by
  simp [toList]

theorem toList_focus_next (s : Stack) : s.focus_next.toList = s.toList := by
  rcases s with ⟨up, f, down⟩
  cases down with
  | cons d ds => simp [focus_next, toList]
  | nil =>
    cases hu : up.reverse with
    | nil =>
      have : up = [] := by simpa using congrArg List.reverse hu
      simp [focus_next, toList, hu, this]
    | cons h t =>
      have : up = (h :: t).reverse := by simpa using congrArg List.reverse hu
      simp [focus_next, toList, hu, this]

theorem toList_focus_prev (s : Stack) : s.focus_prev.toList = s.toList := by
  rcases s with ⟨up, f, down⟩
  cases up with
  | cons u us => simp [focus_prev, toList]
  | nil =>
    cases hd : down.reverse with
    | nil =>
      have : down = [] := by simpa using congrArg List.reverse hd
      simp [focus_prev, toList, hd, this]
    | cons l rest =>
      have : down = (l :: rest).reverse := by simpa using congrArg List.reverse hd
      simp [focus_prev, toList, hd, this]

theorem toList_swap_focus_next (s : Stack) : s.swap_focus_next.toList.Perm s.toList := by
  rcases s with ⟨up, f, down⟩
  cases down with
  | nil => simp [swap_focus_next]
  | cons d ds =>
    simp only [swap_focus_next, toList, List.reverse_cons, List.append_assoc,
      List.cons_append, List.nil_append]
    exact List.Perm.append_left up.reverse (List.Perm.swap f d ds)

theorem toList_swap_focus_prev (s : Stack) : s.swap_focus_prev.toList.Perm s.toList := by
  rcases s with ⟨up, f, down⟩
  cases up with
  | nil => simp [swap_focus_prev]
  | cons u us =>
    simp only [swap_focus_prev, toList, List.reverse_cons, List.append_assoc,
      List.cons_append, List.nil_append]
    exact List.Perm.append_left us.reverse (List.Perm.swap u f down)

theorem remove_eq_none_iff (s : Stack) (x : Xid) :
    s.remove x = none ↔ s.up = [] ∧ s.down = [] ∧ s.focus = x := by
  rcases s with ⟨up, f, down⟩
  constructor
  · intro h
    by_cases hf : f = x
    · cases down with
      | cons d ds => simp [remove, hf] at h
      | nil =>
        cases up with
        | cons u us => simp [remove, hf] at h
        | nil => exact ⟨rfl, rfl, hf⟩
    · by_cases hu : x ∈ up
      · simp [remove, hf, hu] at h
      · by_cases hd : x ∈ down
        · simp [remove, hf, hu, hd] at h
        · simp [remove, hf, hu, hd] at h
  · rintro ⟨hu, hd, hf⟩
    subst hu; subst hd; subst hf
    simp [remove]

theorem remove_of_not_mem (s : Stack) (x : Xid) (h : x ∉ s.toList) :
    s.remove x = some s := by
  rcases s with ⟨up, f, down⟩
  simp only [toList, List.mem_append, List.mem_cons, List.mem_reverse, not_or] at h
  obtain ⟨hu, hf, hd⟩ := h
  have hfx : ¬f = x := fun hh => hf hh.symm
  simp [remove, hfx, hu, hd]

theorem remove_perm_of_mem (s : Stack) (x : Xid) (h : x ∈ s.toList) :
    s.toList.Perm (x :: optToList (s.remove x)) := by
  rcases s with ⟨up, f, down⟩
  by_cases hf : f = x
  · subst hf
    cases down with
    | cons d ds =>
      simp only [remove, if_true, eq_self_iff_true, optToList_some, toList, ite_true]
      exact List.perm_middle
    | nil =>
      cases up with
      | cons u us =>
        simp only [remove, if_pos rfl, optToList_some, toList, List.reverse_cons,
          List.append_assoc, List.cons_append, List.nil_append, List.append_nil]
        have e : us.reverse ++ [u, f] = (us.reverse ++ [u]) ++ [f] := by
          simp [List.append_assoc]
        rw [e]
        exact List.perm_append_comm
      | nil => simp [remove, optToList, toList]
  · have hx : x ∈ up.reverse ++ f :: down := h
    simp only [List.mem_append, List.mem_cons, List.mem_reverse] at hx
    have hx' : x ∈ up ∨ x ∈ down := by
      rcases hx with h1 | h2 | h3
      · exact Or.inl h1
      · exact absurd h2.symm hf
      · exact Or.inr h3
    by_cases hu : x ∈ up
    · simp only [remove, if_neg hf, if_pos hu, optToList_some, toList]
      have p1 : (up.reverse ++ f :: down).Perm (up ++ f :: down) :=
        List.Perm.append_right _ (List.reverse_perm up)
      have p2 : (up ++ f :: down).Perm ((x :: up.erase x) ++ f :: down) :=
        List.Perm.append_right _ (List.perm_cons_erase hu)
      have p3 : (x :: (up.erase x ++ f :: down)).Perm
          (x :: ((up.erase x).reverse ++ f :: down)) :=
        List.Perm.cons x (List.Perm.append_right _ (List.reverse_perm _).symm)
      exact (p1.trans p2).trans p3
    · have hd : x ∈ down := hx'.resolve_left hu
      simp only [remove, if_neg hf, if_neg hu, if_pos hd, optToList_some, toList]
      have p1 : (up.reverse ++ f :: down).Perm
          (up.reverse ++ f :: (x :: down.erase x)) :=
        List.Perm.append_left _ (List.Perm.cons f (List.perm_cons_erase hd))
      have p2 : (up.reverse ++ f :: (x :: down.erase x)).Perm
          (up.reverse ++ x :: (f :: down.erase x)) :=
        List.Perm.append_left _ (List.Perm.swap x f _)
      have p3 : (up.reverse ++ x :: (f :: down.erase x)).Perm
          (x :: (up.reverse ++ f :: down.erase x)) :=
        List.perm_middle
      exact (p1.trans p2).trans p3

theorem insert_of_mem (s : Stack) (x : Xid) (h : x ∈ s.toList) :
    s.insert x = .error .DuplicateWindow := by
  simp [insert, (contains_iff_mem_toList s x).2 h]

theorem insert_of_not_mem (s : Stack) (x : Xid) (h : x ∉ s.toList) :
    s.insert x = .ok ⟨s.up, x, s.focus :: s.down⟩ := by
  have hc : s.contains x = false := by
    cases hcc : s.contains x with
    | false => rfl
    | true => exact absurd ((contains_iff_mem_toList s x).1 hcc) h
  simp [insert, hc]

end Stack

/-- Modelled from the spec: a `Layout` is a name plus a pure transformation
function `(screen: Rect, visible: ordered-sequence<Xid>) → sequence<(Xid, Rect)>`. -/
structure Layout where
  name : String
  run : Rect → List Xid → List (Xid × Rect)

instance : Inhabited Layout :=
  ⟨⟨"", fun _ _ => []⟩⟩

/-- Modelled from the spec: `apply(layout, screen_rect, visible_ids) → placements`. -/
def Layout.apply (l : Layout) (screen_rect : Rect) (visible_ids : List Xid) :
    List (Xid × Rect) :=
  l.run screen_rect visible_ids

/-- Modelled from the spec: a `Workspace` is `{tag, stack: optional<Stack<Xid>>,
layouts: non-empty ordered list<Layout>, active_layout_index}`. -/
structure Workspace where
  tag : String
  stack : Option Stack
  layouts : List Layout
  active_layout_index : Nat

namespace Workspace

/-- Modelled from the spec: `visible_ids(ws)` is the full linearization of
`ws.stack` (empty if none). -/
def visible_ids (ws : Workspace) : List Xid :=
  Stack.optToList ws.stack

/-- Modelled from the spec: the Layout of the workspace marked active. -/
def active_layout (ws : Workspace) : Layout :=
  ws.layouts.getD ws.active_layout_index default

/-- Modelled from the spec: `recompute(ws, screen_rect)` is
`apply(active_layout(ws), screen_rect, visible_ids(ws))`. -/
def recompute (ws : Workspace) (screen_rect : Rect) : List (Xid × Rect) :=
  ws.active_layout.apply screen_rect ws.visible_ids

/-- Modelled from the spec: `next_layout` rotates which layout is active, cycling
the ordered layout list circularly in the forward direction. -/
def next_layout (ws : Workspace) : Workspace :=
  { ws with active_layout_index := (ws.active_layout_index + 1) % ws.layouts.length }

/-- Modelled from the spec: `prev_layout` rotates which layout is active, cycling
the ordered layout list circularly in the backward direction. -/
def prev_layout (ws : Workspace) : Workspace :=
  { ws with active_layout_index :=
      (ws.active_layout_index + ws.layouts.length - 1) % ws.layouts.length }

/-- Modelled from the spec: `add_window(ws, x)`: if `ws.stack` is none, creates a
singleton Stack; else calls Stack.insert; fails with `DuplicateWindow` under the
same condition as Stack.insert. -/
def add_window (ws : Workspace) (x : Xid) : Except Error Workspace :=
  match ws.stack with
  | none => .ok { ws with stack := some ⟨[], x, []⟩ }
  | some s => (s.insert x).map fun s2 => { ws with stack := some s2 }

/-- Modelled from the spec: `remove_window(ws, x)` delegates to Stack.remove; if
the result is none, clears `ws.stack`. -/
def remove_window (ws : Workspace) (x : Xid) : Workspace :=
  match ws.stack with
  | none => ws
  | some s => { ws with stack := s.remove x }

theorem tag_next_layout (ws : Workspace) : ws.next_layout.tag = ws.tag := rfl

theorem tag_prev_layout (ws : Workspace) : ws.prev_layout.tag = ws.tag := rfl

theorem stack_next_layout (ws : Workspace) : ws.next_layout.stack = ws.stack := rfl

theorem stack_prev_layout (ws : Workspace) : ws.prev_layout.stack = ws.stack := rfl

theorem tag_remove_window (ws : Workspace) (x : Xid) :
    (ws.remove_window x).tag = ws.tag := by
  cases h : ws.stack <;> simp [remove_window, h]

theorem tag_add_window (ws ws2 : Workspace) (x : Xid)
    (h : ws.add_window x = .ok ws2) : ws2.tag = ws.tag := by
  cases hs : ws.stack with
  | none => simp [add_window, hs] at h; subst h; rfl
  | some s =>
    simp only [add_window, hs] at h
    cases hi : s.insert x with
    | error e => simp [hi, Except.map] at h
    | ok s2 => simp [hi, Except.map] at h; subst h; rfl

theorem visible_ids_add_window (ws ws2 : Workspace) (x : Xid)
    (h : ws.add_window x = .ok ws2) :
    ws2.visible_ids.Perm (x :: ws.visible_ids) := by
  cases hs : ws.stack with
  | none =>
    simp [add_window, hs] at h
    subst h
    simp [visible_ids, Stack.optToList, Stack.toList, hs]
  | some s =>
    simp only [add_window, hs] at h
    cases hi : s.insert x with
    | error e => simp [hi, Except.map] at h
    | ok s2 =>
      simp [hi, Except.map] at h
      subst h
      have hnm : x ∉ s.toList := by
        intro hmem
        rw [Stack.insert_of_mem s x hmem] at hi
        cases hi
      have := Stack.insert_of_not_mem s x hnm
      rw [this] at hi
      cases hi
      simp only [visible_ids, Stack.optToList_some, hs, Stack.toList]
      exact List.perm_middle

theorem visible_ids_remove_window (ws : Workspace) (x : Xid)
    (h : x ∈ ws.visible_ids) :
    (x :: (ws.remove_window x).visible_ids).Perm ws.visible_ids := by
  cases hs : ws.stack with
  | none => simp [visible_ids, Stack.optToList, hs] at h
  | some s =>
    simp only [visible_ids, Stack.optToList_some, hs] at h
    simp only [remove_window, hs, visible_ids]
    exact (Stack.remove_perm_of_mem s x h).symm

theorem visible_ids_remove_window_of_not_mem (ws : Workspace) (x : Xid)
    (h : x ∉ ws.visible_ids) : ws.remove_window x = ws := by
  rcases ws with ⟨t, st, ls, i⟩
  cases st with
  | none => simp [remove_window]
  | some s =>
    simp only [visible_ids, Stack.optToList_some] at h
    simp [remove_window, Stack.remove_of_not_mem s x h]

end Workspace

/-- Modelled from the spec: update the first element of a list satisfying a
predicate, leaving everything else untouched.  Workspace tags are unique, so the
engine's "the Workspace with tag t" lookups touch exactly one entry. -/
def updateFirst (p : α → Bool) (f : α → α) : List α → List α
  | [] => []
  | a :: as => if p a then f a :: as else a :: updateFirst p f as

/-- Modelled from the spec: fallible variant of `updateFirst` for sub-operations
that may signal a recoverable error, short-circuiting without any mutation. -/
def updateFirstE (p : α → Bool) (f : α → Except Error α) : List α → Except Error (List α)
  | [] => .ok []
  | a :: as =>
    if p a then (f a).map (· :: as)
    else (updateFirstE p f as).map (a :: ·)

theorem updateFirst_map_eq (p : α → Bool) (f : α → α) (g : α → β)
    (hf : ∀ a, p a = true → g (f a) = g a) (l : List α) :
    (updateFirst p f l).map g = l.map g := by
  induction l with
  | nil => rfl
  | cons a as ih =>
    by_cases hp : p a = true
    · simp [updateFirst, hp, hf a hp]
    · simp [updateFirst, hp, ih]

theorem flatten_updateFirst_eq (p : α → Bool) (f : α → α) (g : α → List β)
    (hf : ∀ a, p a = true → g (f a) = g a) (l : List α) :
    ((updateFirst p f l).map g).flatten = (l.map g).flatten := by
  rw [updateFirst_map_eq p f g hf l]

theorem flatten_updateFirst_perm_cons (p : α → Bool) (f : α → α) (g : α → List β)
    (x : β) (hf : ∀ a, p a = true → (g (f a)).Perm (x :: g a)) (l : List α)
    (hex : ∃ a ∈ l, p a = true) :
    ((updateFirst p f l).map g).flatten.Perm (x :: (l.map g).flatten) := by
  induction l with
  | nil => exact absurd hex (by simp)
  | cons a as ih =>
    by_cases hp : p a = true
    · simp only [updateFirst, hp, if_true, List.map_cons, List.flatten_cons]
      exact List.Perm.append_right _ (hf a hp)
    · simp only [updateFirst, hp, if_false, List.map_cons, List.flatten_cons]
      have hex2 : ∃ b ∈ as, p b = true := by
        rcases hex with ⟨b, hb, hpb⟩
        rcases List.mem_cons.1 hb with rfl | hb2
        · exact absurd hpb hp
        · exact ⟨b, hb2, hpb⟩
      have h1 := List.Perm.append_left (g a) (ih hex2)
      exact h1.trans List.perm_middle
 
theorem flatten_updateFirst_perm_remove (p : α → Bool) (f : α → α) (g : α → List β)
    (x : β) (hf : ∀ a, p a = true → (x :: g (f a)).Perm (g a)) (l : List α) :
    (∃ a ∈ l, p a = true) →
    (x :: ((updateFirst p f l).map g).flatten).Perm ((l.map g).flatten) := by
  induction l with
  | nil => intro hex; exact absurd hex (by simp)
  | cons a as ih =>
    intro hex
    by_cases hp : p a = true
    · simp only [updateFirst, hp, if_true, List.map_cons, List.flatten_cons]
      exact List.Perm.append_right _ (hf a hp)
    · simp only [updateFirst, hp, if_false, List.map_cons, List.flatten_cons]
      have hex2 : ∃ b ∈ as, p b = true := by
        rcases hex with ⟨b, hb, hpb⟩
        rcases List.mem_cons.1 hb with rfl | hb2
        · exact absurd hpb hp
        · exact ⟨b, hb2, hpb⟩
      have h1 : (x :: (g a ++ ((updateFirst p f as).map g).flatten)).Perm
          (g a ++ (x :: ((updateFirst p f as).map g).flatten)) := List.perm_middle.symm
      exact h1.trans (List.Perm.append_left (g a) (ih hex2))

theorem updateFirstE_map_eq (p : α → Bool) (f : α → Except Error α) (g : α → β)
    (hf : ∀ a b, p a = true → f a = .ok b → g b = g a) :
    ∀ (l l2 : List α), updateFirstE p f l = .ok l2 → l2.map g = l.map g := by
  intro l
  induction l with
  | nil => intro l2 h; cases h; rfl
  | cons a as ih =>
    intro l2 h
    by_cases hp : p a = true
    · simp only [updateFirstE, hp, if_true] at h
      cases hfa : f a with
      | error e => rw [hfa] at h; cases h
      | ok b =>
        rw [hfa] at h
        cases h
        simp [hf a b hp hfa]
    · simp only [updateFirstE, hp, if_false] at h
      cases hrec : updateFirstE p f as with
      | error e => rw [hrec] at h; cases h
      | ok as2 =>
        rw [hrec] at h
        cases h
        simp [ih as2 hrec]

theorem flatten_updateFirstE_perm_cons (p : α → Bool) (f : α → Except Error α)
    (g : α → List β) (x : β)
    (hf : ∀ a b, p a = true → f a = .ok b → (g b).Perm (x :: g a)) :
    ∀ (l l2 : List α), updateFirstE p f l = .ok l2 → (∃ a ∈ l, p a = true) →
    ((l2.map g).flatten).Perm (x :: (l.map g).flatten) := by
  intro l
  induction l with
  | nil => intro l2 h hex; exact absurd hex (by simp)
  | cons a as ih =>
    intro l2 h hex
    by_cases hp : p a = true
    · simp only [updateFirstE, hp, if_true] at h
      cases hfa : f a with
      | error e => rw [hfa] at h; cases h
      | ok b =>
        rw [hfa] at h
        cases h
        simp only [List.map_cons, List.flatten_cons]
        exact List.Perm.append_right _ (hf a b hp hfa)
    · simp only [updateFirstE, hp, if_false] at h
      cases hrec : updateFirstE p f as with
      | error e => rw [hrec] at h; cases h
      | ok as2 =>
        rw [hrec] at h
        cases h
        have hex2 : ∃ b ∈ as, p b = true := by
          rcases hex with ⟨b, hb, hpb⟩
          rcases List.mem_cons.1 hb with rfl | hb2
          · exact absurd hpb hp
          · exact ⟨b, hb2, hpb⟩
        simp only [List.map_cons, List.flatten_cons]
        have h1 := List.Perm.append_left (g a) (ih as2 hrec hex2)
        exact h1.trans List.perm_middle

/-- Modelled from the spec: `Screen = {index, geometry: Rect, workspace_tag: tag
of currently-displayed Workspace}`. -/
structure Screen where
  index : Nat
  geometry : Rect
  workspace_tag : String
  deriving DecidableEq, Repr

/-- Modelled from the spec: an `Event` is a tagged variant representing an
external stimulus; unrecognized stimuli are decoded to `Unrecognized`. -/
inductive Event where
  | WindowCreated (x : Xid) (preferred_screen : Option Nat)
  | WindowDestroyed (x : Xid)
  | FocusNext
  | FocusPrev
  | SwapUp
  | SwapDown
  | MoveWindowToWorkspace (tag : String)
  | CycleLayoutNext
  | CycleLayoutPrev
  | ScreenConfigurationChanged (new_screens : List Screen)
  | ToggleFloating (x : Xid)
  | Unrecognized

/-- Modelled from the spec: an `Effect` is a tagged variant representing a
required outward action; Effects are data, never executed by the core. -/
inductive Effect where
  | MapWindow (x : Xid)
  | UnmapWindow (x : Xid)
  | ConfigureWindow (x : Xid) (r : Rect)
  | SetInputFocus (x : Xid)
  | RaiseWindow (x : Xid)

/-- Modelled from the spec: `WindowManagerState` is `{workspaces: ordered
sequence<Workspace>, screens: ordered sequence<Screen>, floating: mapping<Xid,
Rect>, known_windows: set<Xid>}`, the single mutable root. -/
structure WindowManagerState where
  workspaces : List Workspace
  screens : List Screen
  floating : List (Xid × Rect)
  known_windows : List Xid

namespace WindowManagerState

/-- Modelled from the spec: the identifiers appearing in any Workspace Stack. -/
def allStackIds (s : WindowManagerState) : List Xid :=
  (s.workspaces.map Workspace.visible_ids).flatten

/-- Modelled from the spec: the identifiers held in the `floating` mapping. -/
def floatingIds (s : WindowManagerState) : List Xid :=
  s.floating.map Prod.fst

/-- Modelled from the spec: the tags of all existing Workspaces. -/
def tags (s : WindowManagerState) : List String :=
  s.workspaces.map Workspace.tag

end WindowManagerState

/-- Modelled from the spec: remove the entry for `x` from the `floating` mapping. -/
def removeFloat (x : Xid) : List (Xid × Rect) → List (Xid × Rect)
  | [] => []
  | (y, r) :: rest => if y = x then rest else (y, r) :: removeFloat x rest

/-- Modelled from the spec: default geometry used when a window gains floating
status with no recorded geometry of its own. -/
def defaultFloatRect : Rect :=
  ⟨0, 0, 640, 480⟩

/-- Modelled from the spec: reconcile a proposed screen list, dropping screens
whose displayed tag does not name an existing Workspace and keeping only the
first screen displaying any given tag (a workspace is shown on at most one
screen). -/
def dedupScreens (seen : List String) : List Screen → List Screen
  | [] => []
  | scr :: rest =>
    if scr.workspace_tag ∈ seen then dedupScreens seen rest
    else scr :: dedupScreens (scr.workspace_tag :: seen) rest

namespace WindowManagerState

/-- Modelled from the spec: the configure effects for the workspace with tag `t`
when it is currently shown on a screen, recomputed from the active layout. -/
def configureEffects (s : WindowManagerState) (t : String) : List Effect :=
  match s.screens.find? (fun scr => scr.workspace_tag == t),
        s.workspaces.find? (fun w => w.tag == t) with
  | some scr, some w =>
    (w.recompute scr.geometry).map (fun pl => Effect.ConfigureWindow pl.1 pl.2)
  | _, _ => []

/-- Modelled from the spec: the focused screen.  The data model keeps screens as
an ordered sequence; the head of the sequence is the focused screen. -/
def focusedScreen (s : WindowManagerState) : Option Screen :=
  s.screens.head?

/-- Modelled from the spec, **WindowCreated(x, preferred_screen)**: fails with
`DuplicateWindow` if `x ∈ known_windows`; otherwise adds `x` to `known_windows`,
inserts into the Stack of the workspace currently shown on `preferred_screen`
(or the first workspace if no screen given), recomputes that workspace's layout,
and emits map, configure and focus effects. -/
def handleWindowCreated (s : WindowManagerState) (x : Xid)
    (preferred_screen : Option Nat) :
    Except Error (WindowManagerState × List Effect) :=
  if x ∈ s.known_windows then .error .DuplicateWindow
  else
    let targetTag :=
      match preferred_screen.bind (fun i => s.screens.find? (fun scr => scr.index == i)) with
      | some scr => some scr.workspace_tag
      | none => s.workspaces.head?.map Workspace.tag
    match targetTag with
    | none => .ok (s, [])
    | some t =>
      if s.workspaces.any (fun w => w.tag == t) then do
        let ws2 ← updateFirstE (fun w => w.tag == t) (fun w => w.add_window x) s.workspaces
        let s2 : WindowManagerState :=
          { s with workspaces := ws2, known_windows := x :: s.known_windows }
        .ok (s2, Effect.MapWindow x :: (s2.configureEffects t ++ [Effect.SetInputFocus x]))
      else .ok (s, [])

/-- Modelled from the spec, **WindowDestroyed(x)**: removes `x` from whichever
Workspace's Stack or from `floating` contains it (fails with `UnknownWindow` if
neither), removes it from `known_windows`, recomputes the affected workspace and
emits configure effects plus a focus transfer to the new Stack focus (if any). -/
def handleWindowDestroyed (s : WindowManagerState) (x : Xid) :
    Except Error (WindowManagerState × List Effect) :=
  match s.workspaces.find? (fun w => decide (x ∈ w.visible_ids)) with
  | some w =>
    let ws2 := updateFirst (fun w2 => decide (x ∈ w2.visible_ids))
      (fun w2 => w2.remove_window x) s.workspaces
    let s2 : WindowManagerState :=
      { s with workspaces := ws2, known_windows := s.known_windows.erase x }
    let focusEff :=
      match (ws2.find? (fun w2 => w2.tag == w.tag)).bind Workspace.stack with
      | some st => [Effect.SetInputFocus st.focus]
      | none => []
    .ok (s2, s2.configureEffects w.tag ++ focusEff)
  | none =>
    if x ∈ s.floatingIds then
      .ok ({ s with floating := removeFloat x s.floating,
                    known_windows := s.known_windows.erase x }, [])
    else .error .UnknownWindow

/-- Modelled from the spec, **FocusNext / FocusPrev** and **SwapUp / SwapDown**:
apply a pure Stack rotation or swap to the focused screen's current workspace's
Stack and emit focus or raise effects. -/
def handleStackOp (s : WindowManagerState) (op : Stack → Stack)
    (mkEffects : Stack → List Effect) :
    Except Error (WindowManagerState × List Effect) :=
  match s.focusedScreen with
  | none => .ok (s, [])
  | some scr =>
    let ws2 := updateFirst (fun w => w.tag == scr.workspace_tag)
      (fun w => { w with stack := w.stack.map op }) s.workspaces
    let s2 : WindowManagerState := { s with workspaces := ws2 }
    let effs :=
      match (ws2.find? (fun w => w.tag == scr.workspace_tag)).bind Workspace.stack with
      | some st => mkEffects st
      | none => []
    .ok (s2, effs)

/-- Modelled from the spec, **MoveWindowToWorkspace(tag)**: fails with
`UnknownTag` if `tag` does not name an existing Workspace; removes the focused
window from its current Workspace, inserts it into the target Workspace,
recomputes both workspaces and emits unmap for the source plus map and configure
for the destination if visible. -/
def handleMoveWindowToWorkspace (s : WindowManagerState) (t : String) :
    Except Error (WindowManagerState × List Effect) :=
  if s.workspaces.any (fun w => w.tag == t) then
    match s.focusedScreen with
    | none => .ok (s, [])
    | some scr =>
      match s.workspaces.find? (fun w => w.tag == scr.workspace_tag) with
      | none => .ok (s, [])
      | some srcW =>
        match srcW.stack with
        | none => .ok (s, [])
        | some st => do
          let x := st.focus
          let ws1 := updateFirst (fun w => w.tag == scr.workspace_tag)
            (fun w => w.remove_window x) s.workspaces
          let ws2 ← updateFirstE (fun w => w.tag == t) (fun w => w.add_window x) ws1
          let s2 : WindowManagerState := { s with workspaces := ws2 }
          let destEff :=
            match s2.screens.find? (fun sc2 => sc2.workspace_tag == t) with
            | some _ => Effect.MapWindow x :: s2.configureEffects t
            | none => []
          .ok (s2, Effect.UnmapWindow x :: (s2.configureEffects scr.workspace_tag ++ destEff))
  else .error .UnknownTag

/-- Modelled from the spec, **CycleLayout(direction)**: rotates
`active_layout_index` on the focused workspace circularly; recomputes and emits
configure effects for the currently visible windows on that workspace. -/
def handleCycleLayout (s : WindowManagerState) (op : Workspace → Workspace) :
    Except Error (WindowManagerState × List Effect) :=
  match s.focusedScreen with
  | none => .ok (s, [])
  | some scr =>
    let ws2 := updateFirst (fun w => w.tag == scr.workspace_tag) op s.workspaces
    let s2 : WindowManagerState := { s with workspaces := ws2 }
    .ok (s2, s2.configureEffects scr.workspace_tag)

/-- Modelled from the spec, **ScreenConfigurationChanged(new_screens)**:
reconciles `screens`; workspaces previously shown on removed screens become
hidden with their state retained; workspaces assigned to new screens are
recomputed and mapped. -/
def handleScreenConfigurationChanged (s : WindowManagerState)
    (new_screens : List Screen) :
    Except Error (WindowManagerState × List Effect) :=
  let screens2 := dedupScreens []
    (new_screens.filter (fun scr => s.workspaces.any (fun w => w.tag == scr.workspace_tag)))
  let s2 : WindowManagerState := { s with screens := screens2 }
  .ok (s2, (screens2.map (fun scr => s2.configureEffects scr.workspace_tag)).flatten)

/-- Modelled from the spec, **ToggleFloating(x)**: fails with `UnknownWindow` if
`x ∉ known_windows`; moves `x` between its owning Stack and the `floating` map
(using a default geometry), recomputes the losing Workspace and emits configure
and raise effects when `x` gains float status. -/
def handleToggleFloating (s : WindowManagerState) (x : Xid) :
    Except Error (WindowManagerState × List Effect) :=
  if x ∈ s.known_windows then
    match s.workspaces.find? (fun w => decide (x ∈ w.visible_ids)) with
    | some w =>
      let ws2 := updateFirst (fun w2 => decide (x ∈ w2.visible_ids))
        (fun w2 => w2.remove_window x) s.workspaces
      let s2 : WindowManagerState :=
        { s with workspaces := ws2, floating := (x, defaultFloatRect) :: s.floating }
      .ok (s2, s2.configureEffects w.tag ++
        [Effect.ConfigureWindow x defaultFloatRect, Effect.RaiseWindow x])
    | none =>
      if x ∈ s.floatingIds then
        match s.focusedScreen with
        | none => .ok (s, [])
        | some scr =>
          if s.workspaces.any (fun w => w.tag == scr.workspace_tag) then do
            let ws2 ← updateFirstE (fun w => w.tag == scr.workspace_tag)
              (fun w => w.add_window x) s.workspaces
            let s2 : WindowManagerState :=
              { s with workspaces := ws2, floating := removeFloat x s.floating }
            .ok (s2, s2.configureEffects scr.workspace_tag)
          else .ok (s, [])
      else .ok (s, [])
  else .error .UnknownWindow

/-- Modelled from the spec: the per-event dispatch of the transition engine;
individual sub-operations may signal a recoverable condition. -/
def handle (s : WindowManagerState) : Event → Except Error (WindowManagerState × List Effect)
  | .WindowCreated x pref => s.handleWindowCreated x pref
  | .WindowDestroyed x => s.handleWindowDestroyed x
  | .FocusNext =>
    s.handleStackOp Stack.focus_next
      (fun st => [Effect.SetInputFocus st.focus, Effect.RaiseWindow st.focus])
  | .FocusPrev =>
    s.handleStackOp Stack.focus_prev
      (fun st => [Effect.SetInputFocus st.focus, Effect.RaiseWindow st.focus])
  | .SwapUp =>
    s.handleStackOp Stack.swap_focus_prev (fun st => [Effect.RaiseWindow st.focus])
  | .SwapDown =>
    s.handleStackOp Stack.swap_focus_next (fun st => [Effect.RaiseWindow st.focus])
  | .MoveWindowToWorkspace t => s.handleMoveWindowToWorkspace t
  | .CycleLayoutNext => s.handleCycleLayout Workspace.next_layout
  | .CycleLayoutPrev => s.handleCycleLayout Workspace.prev_layout
  | .ScreenConfigurationChanged ns => s.handleScreenConfigurationChanged ns
  | .ToggleFloating x => s.handleToggleFloating x
  | .Unrecognized => .ok (s, [])

/-- Modelled from the spec: `transition(state, event) → (new_state, effects)`,
total: an unrecognized or no-op event yields `(state, [])`, and a recoverable
error is returned alongside the unchanged prior state. -/
def transition (s : WindowManagerState) (e : Event) :
    WindowManagerState × List Effect × Option Error :=
  match s.handle e with
  | .ok (s2, effs) => (s2, effs, none)
  | .error err => (s, [], some err)

/-- Modelled from the spec: the invariants of `WindowManagerState`, enforced on
every transition: (a) every Xid in any Workspace Stack or in `floating` is in
`known_windows` and `known_windows` has no duplicates; (b) an Xid appears in at
most one Workspace Stack and never simultaneously in a Stack and in `floating`;
(c) every Screen's `workspace_tag` names an existing Workspace; (d) each
Workspace tag is displayed on at most one Screen. -/
def Invariant (s : WindowManagerState) : Prop :=
  s.known_windows.Nodup ∧
  (∀ x ∈ s.allStackIds, x ∈ s.known_windows) ∧
  (∀ x ∈ s.floatingIds, x ∈ s.known_windows) ∧
  (s.allStackIds ++ s.floatingIds).Nodup ∧
  (∀ scr ∈ s.screens, scr.workspace_tag ∈ s.tags) ∧
  (s.screens.map Screen.workspace_tag).Nodup

theorem invariant_same (s : WindowManagerState) (ws2 : List Workspace)
    (fl2 : List (Xid × Rect)) (hInv : Invariant s)
    (htags : ws2.map Workspace.tag = s.workspaces.map Workspace.tag)
    (hperm : ((ws2.map Workspace.visible_ids).flatten ++ fl2.map Prod.fst).Perm
      (s.allStackIds ++ s.floatingIds)) :
    Invariant { s with workspaces := ws2, floating := fl2 } := by
  obtain ⟨h1, h2, h3, h4, h5, h6⟩ := hInv
  refine ⟨h1, ?_, ?_, ?_, ?_, h6⟩
  · intro x hx
    have hx2 : x ∈ s.allStackIds ++ s.floatingIds :=
      hperm.mem_iff.1 (List.mem_append_left _ hx)
    rcases List.mem_append.1 hx2 with h | h
    · exact h2 x h
    · exact h3 x h
  · intro x hx
    have hx2 : x ∈ s.allStackIds ++ s.floatingIds :=
      hperm.mem_iff.1 (List.mem_append_right _ hx)
    rcases List.mem_append.1 hx2 with h | h
    · exact h2 x h
    · exact h3 x h
  · exact hperm.symm.nodup h4
  · intro scr hscr
    have := h5 scr hscr
    simpa [WindowManagerState.tags, htags] using this

theorem invariant_create (s : WindowManagerState) (ws2 : List Workspace) (x : Xid)
    (hInv : Invariant s) (hx : x ∉ s.known_windows)
    (htags : ws2.map Workspace.tag = s.workspaces.map Workspace.tag)
    (hperm : ((ws2.map Workspace.visible_ids).flatten ++ s.floatingIds).Perm
      (x :: (s.allStackIds ++ s.floatingIds))) :
    Invariant { s with workspaces := ws2, known_windows := x :: s.known_windows } := by
  obtain ⟨h1, h2, h3, h4, h5, h6⟩ := hInv
  have hxtot : x ∉ s.allStackIds ++ s.floatingIds := by
    intro hmem
    rcases List.mem_append.1 hmem with h | h
    · exact hx (h2 x h)
    · exact hx (h3 x h)
  refine ⟨List.nodup_cons.2 ⟨hx, h1⟩, ?_, ?_, ?_, ?_, h6⟩
  · intro y hy
    have hy2 : y ∈ x :: (s.allStackIds ++ s.floatingIds) :=
      hperm.mem_iff.1 (List.mem_append_left _ hy)
    rcases List.mem_cons.1 hy2 with rfl | hy3
    · exact List.mem_cons_self _ _
    · rcases List.mem_append.1 hy3 with h | h
      · exact List.mem_cons_of_mem _ (h2 y h)
      · exact List.mem_cons_of_mem _ (h3 y h)
  · intro y hy
    have hy2 : y ∈ x :: (s.allStackIds ++ s.floatingIds) :=
      hperm.mem_iff.1 (List.mem_append_right _ hy)
    rcases List.mem_cons.1 hy2 with rfl | hy3
    · exact List.mem_cons_self _ _
    · rcases List.mem_append.1 hy3 with h | h
      · exact List.mem_cons_of_mem _ (h2 y h)
      · exact List.mem_cons_of_mem _ (h3 y h)
  · exact hperm.symm.nodup (List.nodup_cons.2 ⟨hxtot, h4⟩)
  · intro scr hscr
    have := h5 scr hscr
    simpa [WindowManagerState.tags, htags] using this

theorem invariant_destroy (s : WindowManagerState) (ws2 : List Workspace)
    (fl2 : List (Xid × Rect)) (x : Xid) (hInv : Invariant s)
    (htags : ws2.map Workspace.tag = s.workspaces.map Workspace.tag)
    (hperm : (x :: ((ws2.map Workspace.visible_ids).flatten ++ fl2.map Prod.fst)).Perm
      (s.allStackIds ++ s.floatingIds)) :
    Invariant { s with workspaces := ws2, floating := fl2,
                       known_windows := s.known_windows.erase x } := by
  obtain ⟨h1, h2, h3, h4, h5, h6⟩ := hInv
  have hnew : (x :: ((ws2.map Workspace.visible_ids).flatten ++ fl2.map Prod.fst)).Nodup :=
    hperm.symm.nodup h4
  have hxnot : x ∉ (ws2.map Workspace.visible_ids).flatten ++ fl2.map Prod.fst :=
    (List.nodup_cons.1 hnew).1
  have hmem : ∀ y ∈ (ws2.map Workspace.visible_ids).flatten ++ fl2.map Prod.fst,
      y ∈ s.known_windows.erase x := by
    intro y hy
    have hyx : y ≠ x := fun h => hxnot (h ▸ hy)
    have hy2 : y ∈ s.allStackIds ++ s.floatingIds :=
      hperm.mem_iff.1 (List.mem_cons_of_mem _ hy)
    have hyk : y ∈ s.known_windows := by
      rcases List.mem_append.1 hy2 with h | h
      · exact h2 y h
      · exact h3 y h
    exact (List.mem_erase_of_ne hyx).2 hyk
  refine ⟨h1.erase x, ?_, ?_, ?_, ?_, h6⟩
  · intro y hy
    exact hmem y (List.mem_append_left _ hy)
  · intro y hy
    exact hmem y (List.mem_append_right _ hy)
  · exact (List.nodup_cons.1 hnew).2
  · intro scr hscr
    have := h5 scr hscr
    simpa [WindowManagerState.tags, htags] using this

theorem invariant_screens (s : WindowManagerState) (screens2 : List Screen)
    (hInv : Invariant s)
    (hexist : ∀ scr ∈ screens2, scr.workspace_tag ∈ s.tags)
    (hnodup : (screens2.map Screen.workspace_tag).Nodup) :
    Invariant { s with screens := screens2 } := by
  obtain ⟨h1, h2, h3, h4, _, _⟩ := hInv
  exact ⟨h1, h2, h3, h4, hexist, hnodup⟩

end WindowManagerState

theorem removeFloat_keys_perm (x : Xid) (l : List (Xid × Rect))
    (h : x ∈ l.map Prod.fst) :
    (x :: (removeFloat x l).map Prod.fst).Perm (l.map Prod.fst) := by
  induction l with
  | nil => simp at h
  | cons a rest ih =>
    rcases a with ⟨y, r⟩
    by_cases hy : y = x
    · subst hy
      simp [removeFloat]
    · have hx2 : x ∈ rest.map Prod.fst := by
        rcases List.mem_cons.1 h with h1 | h1
        · exact absurd h1.symm hy
        · exact h1
      simp only [removeFloat, hy, if_false, List.map_cons]
      exact (List.Perm.swap y x _).trans (List.Perm.cons y (ih hx2))

theorem dedupScreens_mem (seen : List String) (l : List Screen) :
    ∀ scr ∈ dedupScreens seen l, scr ∈ l := by
  induction l generalizing seen with
  | nil => intro scr h; simp [dedupScreens] at h
  | cons a rest ih =>
    intro scr h
    by_cases ha : a.workspace_tag ∈ seen
    · simp only [dedupScreens, ha, if_true] at h
      exact List.mem_cons_of_mem _ (ih seen scr h)
    · simp only [dedupScreens, ha, if_false] at h
      rcases List.mem_cons.1 h with rfl | h2
      · exact List.mem_cons_self _ _
      · exact List.mem_cons_of_mem _ (ih _ scr h2)

theorem dedupScreens_tags_nodup (l : List Screen) (seen : List String) :
    ((dedupScreens seen l).map Screen.workspace_tag).Nodup ∧
    (∀ t ∈ (dedupScreens seen l).map Screen.workspace_tag, t ∉ seen) := by
  induction l generalizing seen with
  | nil => exact ⟨List.nodup_nil, by simp [dedupScreens]⟩
  | cons a rest ih =>
    by_cases ha : a.workspace_tag ∈ seen
    · simpa only [dedupScreens, ha, if_true] using ih seen
    · simp only [dedupScreens, ha, if_false, List.map_cons]
      obtain ⟨ih1, ih2⟩ := ih (a.workspace_tag :: seen)
      constructor
      · refine List.nodup_cons.2 ⟨?_, ih1⟩
        intro hmem
        exact ih2 _ hmem (List.mem_cons_self _ _)
      · intro t ht hts
        rcases List.mem_cons.1 ht with rfl | h2
        · exact ha hts
        · exact ih2 t h2 (List.mem_cons_of_mem _ hts)

theorem flatten_updateFirst_perm (p : α → Bool) (f : α → α) (g : α → List β)
    (hf : ∀ a, p a = true → (g (f a)).Perm (g a)) (l : List α) :
    ((updateFirst p f l).map g).flatten.Perm ((l.map g).flatten) := by
  induction l with
  | nil => exact List.Perm.refl _
  | cons a as ih =>
    by_cases hp : p a = true
    · simp only [updateFirst, hp, if_true, List.map_cons, List.flatten_cons]
      exact List.Perm.append_right _ (hf a hp)
    · simp only [updateFirst, hp, if_false, List.map_cons, List.flatten_cons]
      exact List.Perm.append_left _ ih

theorem flatten_updateFirst_perm_remove_first (p : α → Bool) (f : α → α)
    (g : α → List β) (x : β) :
    ∀ (l : List α) (a : α), l.find? p = some a → (x :: g (f a)).Perm (g a) →
    (x :: ((updateFirst p f l).map g).flatten).Perm ((l.map g).flatten) := by
  intro l
  induction l with
  | nil => intro a hfind; simp [List.find?] at hfind
  | cons b bs ih =>
    intro a hfind hfa
    by_cases hp : p b = true
    · rw [List.find?_cons_of_pos _ hp] at hfind
      cases hfind
      simp only [updateFirst, hp, if_true, List.map_cons, List.flatten_cons]
      exact List.Perm.append_right _ hfa
    · rw [List.find?_cons_of_neg _ (by simpa using hp)] at hfind
      simp only [updateFirst, hp, if_false, List.map_cons, List.flatten_cons]
      exact List.perm_middle.symm.trans (List.Perm.append_left (g b) (ih a hfind hfa))

theorem Stack.focus_mem_toList (s : Stack) : s.focus ∈ s.toList := by
  simp [Stack.toList]

theorem exists_tag_of_map_tag_eq (l1 l2 : List Workspace) (t : String)
    (hmap : l1.map Workspace.tag = l2.map Workspace.tag)
    (hex : ∃ w ∈ l2, (w.tag == t) = true) : ∃ w ∈ l1, (w.tag == t) = true := by
  rcases hex with ⟨w, hw, hwt⟩
  have ht : t ∈ l1.map Workspace.tag := by
    rw [hmap]
    exact List.mem_map.2 ⟨w, hw, by simpa using hwt⟩
  rcases List.mem_map.1 ht with ⟨w1, hw1, hw1t⟩
  exact ⟨w1, hw1, by simpa using hw1t⟩

namespace WindowManagerState

theorem handleCycleLayout_invariant (s : WindowManagerState)
    (op : Workspace → Workspace)
    (hop_ids : ∀ w, (op w).visible_ids = w.visible_ids)
    (hop_tag : ∀ w, (op w).tag = w.tag)
    (hInv : Invariant s) (s2 : WindowManagerState) (effs : List Effect)
    (h : s.handleCycleLayout op = .ok (s2, effs)) : Invariant s2 := by
  cases hscr : s.focusedScreen with
  | none =>
    simp only [handleCycleLayout, hscr] at h
    cases h
    exact hInv
  | some scr =>
    simp only [handleCycleLayout, hscr] at h
    cases h
    have htags := updateFirst_map_eq (fun w => w.tag == scr.workspace_tag) op
      Workspace.tag (fun a _ => hop_tag a) s.workspaces
    have hflat := flatten_updateFirst_perm (fun w => w.tag == scr.workspace_tag) op
      Workspace.visible_ids (fun a _ => by rw [hop_ids a]) s.workspaces
    exact invariant_same s _ s.floating hInv htags
      (List.Perm.append_right s.floatingIds hflat)

theorem handleStackOp_invariant (s : WindowManagerState) (op : Stack → Stack)
    (mkEffects : Stack → List Effect)
    (hop : ∀ st : Stack, (op st).toList.Perm st.toList)
    (hInv : Invariant s) (s2 : WindowManagerState) (effs : List Effect)
    (h : s.handleStackOp op mkEffects = .ok (s2, effs)) : Invariant s2 := by
  cases hscr : s.focusedScreen with
  | none =>
    simp only [handleStackOp, hscr] at h
    cases h
    exact hInv
  | some scr =>
    simp only [handleStackOp, hscr] at h
    cases h
    have htags := updateFirst_map_eq (fun w => w.tag == scr.workspace_tag)
      (fun w => { w with stack := w.stack.map op })
      Workspace.tag (fun a _ => rfl) s.workspaces
    have hflat := flatten_updateFirst_perm (fun w => w.tag == scr.workspace_tag)
      (fun w => { w with stack := w.stack.map op })
      Workspace.visible_ids (fun a _ => ?_) s.workspaces
    · exact invariant_same s _ s.floating hInv htags
        (List.Perm.append_right s.floatingIds hflat)
    · cases hst : a.stack with
      | none => simp [Workspace.visible_ids, hst, Stack.optToList]
      | some st =>
        simp only [Workspace.visible_ids, hst, Option.map_some', Stack.optToList_some]
        exact hop st

theorem handleScreenConfigurationChanged_invariant (s : WindowManagerState)
    (new_screens : List Screen) (hInv : Invariant s)
    (s2 : WindowManagerState) (effs : List Effect)
    (h : s.handleScreenConfigurationChanged new_screens = .ok (s2, effs)) :
    Invariant s2 := by
  simp only [handleScreenConfigurationChanged] at h
  cases h
  apply invariant_screens s _ hInv
  · intro scr hscr
    have hmem := dedupScreens_mem [] _ scr hscr
    have hfil := (List.mem_filter.1 hmem).2
    rcases List.any_eq_true.1 hfil with ⟨w, hw, hwt⟩
    exact List.mem_map.2 ⟨w, hw, by simpa using hwt⟩
  · exact (dedupScreens_tags_nodup _ []).1

theorem find?_eq_some_facts (p : α → Bool) (l : List α) (a : α)
    (h : l.find? p = some a) : a ∈ l ∧ p a = true := by
  induction l with
  | nil => cases h
  | cons b bs ih =>
    by_cases hp : p b = true
    · rw [List.find?_cons_of_pos _ hp] at h
      cases h
      exact ⟨List.mem_cons_self _ _, hp⟩
    · rw [List.find?_cons_of_neg _ (by simpa using hp)] at h
      obtain ⟨h1, h2⟩ := ih h
      exact ⟨List.mem_cons_of_mem _ h1, h2⟩

theorem bind_eq_ok {α β : Type} (e : Except Error α) (f : α → Except Error β)
    (b : β) (h : e >>= f = .ok b) : ∃ a, e = .ok a ∧ f a = .ok b := by
  cases e with
  | error err => cases h
  | ok a => exact ⟨a, rfl, h⟩

theorem handleWindowCreated_invariant (s : WindowManagerState) (x : Xid)
    (pref : Option Nat) (hInv : Invariant s)
    (s2 : WindowManagerState) (effs : List Effect)
    (h : s.handleWindowCreated x pref = .ok (s2, effs)) : Invariant s2 := by
  simp only [handleWindowCreated] at h
  split at h
  · cases h
  · rename_i hk
    split at h
    · cases h
      exact hInv
    · rename_i t htt
      split at h
      · rename_i hany
        rcases bind_eq_ok _ _ _ h with ⟨ws2, hup, h2⟩
        cases h2
        have hex : ∃ w ∈ s.workspaces, (w.tag == t) = true := by
          simpa using List.any_eq_true.1 hany
        have htags := updateFirstE_map_eq (fun w => w.tag == t)
          (fun w => w.add_window x) Workspace.tag
          (fun a b _ hab => Workspace.tag_add_window a b x hab)
          s.workspaces ws2 hup
        have hflat := flatten_updateFirstE_perm_cons (fun w => w.tag == t)
          (fun w => w.add_window x) Workspace.visible_ids x
          (fun a b _ hab => Workspace.visible_ids_add_window a b x hab)
          s.workspaces ws2 hup hex
        exact invariant_create s ws2 x hInv hk htags
          (List.Perm.append_right s.floatingIds hflat)
      · cases h
        exact hInv

theorem handleWindowDestroyed_invariant (s : WindowManagerState) (x : Xid)
    (hInv : Invariant s) (s2 : WindowManagerState) (effs : List Effect)
    (h : s.handleWindowDestroyed x = .ok (s2, effs)) : Invariant s2 := by
  simp only [handleWindowDestroyed] at h
  split at h
  · rename_i w hfind
    cases h
    have hfacts := find?_eq_some_facts _ _ _ hfind
    have htags := updateFirst_map_eq (fun w2 => decide (x ∈ w2.visible_ids))
      (fun w2 => w2.remove_window x) Workspace.tag
      (fun a _ => Workspace.tag_remove_window a x) s.workspaces
    have hex : ∃ a ∈ s.workspaces, decide (x ∈ a.visible_ids) = true :=
      ⟨w, hfacts.1, hfacts.2⟩
    have hflat := flatten_updateFirst_perm_remove
      (fun w2 => decide (x ∈ w2.visible_ids)) (fun w2 => w2.remove_window x)
      Workspace.visible_ids x
      (fun a hpa => Workspace.visible_ids_remove_window a x (of_decide_eq_true hpa))
      s.workspaces hex
    exact invariant_destroy s _ s.floating x hInv htags
      (List.Perm.append_right s.floatingIds hflat)
  · split at h
    · cases h
      rename_i hfind hfl
      have hkeys := removeFloat_keys_perm x s.floating hfl
      have hperm : (x :: (s.allStackIds ++ (removeFloat x s.floating).map Prod.fst)).Perm
          (s.allStackIds ++ s.floatingIds) :=
        List.perm_middle.symm.trans (List.Perm.append_left s.allStackIds hkeys)
      exact invariant_destroy s s.workspaces _ x hInv rfl hperm
    · cases h

theorem handleToggleFloating_invariant (s : WindowManagerState) (x : Xid)
    (hInv : Invariant s) (s2 : WindowManagerState) (effs : List Effect)
    (h : s.handleToggleFloating x = .ok (s2, effs)) : Invariant s2 := by
  simp only [handleToggleFloating] at h
  split at h
  · rename_i hk
    split at h
    · rename_i w hfind
      cases h
      have hfacts := find?_eq_some_facts _ _ _ hfind
      have htags := updateFirst_map_eq (fun w2 => decide (x ∈ w2.visible_ids))
        (fun w2 => w2.remove_window x) Workspace.tag
        (fun a _ => Workspace.tag_remove_window a x) s.workspaces
      have hex : ∃ a ∈ s.workspaces, decide (x ∈ a.visible_ids) = true :=
        ⟨w, hfacts.1, hfacts.2⟩
      have hflat := flatten_updateFirst_perm_remove
        (fun w2 => decide (x ∈ w2.visible_ids)) (fun w2 => w2.remove_window x)
        Workspace.visible_ids x
        (fun a hpa => Workspace.visible_ids_remove_window a x (of_decide_eq_true hpa))
        s.workspaces hex
      apply invariant_same s _ ((x, defaultFloatRect) :: s.floating) hInv htags
      exact List.perm_middle.trans (List.Perm.append_right (s.floating.map Prod.fst) hflat)
    · split at h
      · rename_i hfl
        split at h
        · cases h
          exact hInv
        · rename_i scr hscr
          split at h
          · rename_i hany
            rcases bind_eq_ok _ _ _ h with ⟨ws2, hup, h2⟩
            cases h2
            have hex : ∃ w ∈ s.workspaces, (w.tag == scr.workspace_tag) = true := by
              simpa using List.any_eq_true.1 hany
            have htags := updateFirstE_map_eq (fun w => w.tag == scr.workspace_tag)
              (fun w => w.add_window x) Workspace.tag
              (fun a b _ hab => Workspace.tag_add_window a b x hab)
              s.workspaces ws2 hup
            have hflat := flatten_updateFirstE_perm_cons
              (fun w => w.tag == scr.workspace_tag)
              (fun w => w.add_window x) Workspace.visible_ids x
              (fun a b _ hab => Workspace.visible_ids_add_window a b x hab)
              s.workspaces ws2 hup hex
            apply invariant_same s ws2 (removeFloat x s.floating) hInv htags
            have hkeys := removeFloat_keys_perm x s.floating hfl
            have step1 : ((ws2.map Workspace.visible_ids).flatten ++
                (removeFloat x s.floating).map Prod.fst).Perm
                (x :: (s.allStackIds ++ (removeFloat x s.floating).map Prod.fst)) :=
              List.Perm.append_right _ hflat
            have step2 : (x :: (s.allStackIds ++
                (removeFloat x s.floating).map Prod.fst)).Perm
                (s.allStackIds ++ (x :: (removeFloat x s.floating).map Prod.fst)) :=
              List.perm_middle.symm
            have step3 : (s.allStackIds ++
                (x :: (removeFloat x s.floating).map Prod.fst)).Perm
                (s.allStackIds ++ s.floatingIds) :=
              List.Perm.append_left s.allStackIds hkeys
            exact (step1.trans step2).trans step3
          · cases h
            exact hInv
      · cases h
        exact hInv
  · cases h

theorem handleMoveWindowToWorkspace_invariant (s : WindowManagerState) (t : String)
    (hInv : Invariant s) (s2 : WindowManagerState) (effs : List Effect)
    (h : s.handleMoveWindowToWorkspace t = .ok (s2, effs)) : Invariant s2 := by
  simp only [handleMoveWindowToWorkspace] at h
  split at h
  · rename_i hany
    split at h
    · cases h
      exact hInv
    · rename_i scr hscr
      split at h
      · cases h
        exact hInv
      · rename_i srcW hfsrc
        split at h
        · cases h
          exact hInv
        · rename_i st hst
          rcases bind_eq_ok _ _ _ h with ⟨ws2, hup, h2⟩
          cases h2
          have hx_mem : st.focus ∈ srcW.visible_ids := by
            simp only [Workspace.visible_ids, hst, Stack.optToList_some]
            exact Stack.focus_mem_toList st
          have htags1 := updateFirst_map_eq (fun w => w.tag == scr.workspace_tag)
            (fun w => w.remove_window st.focus) Workspace.tag
            (fun a _ => Workspace.tag_remove_window a st.focus) s.workspaces
          have hrem := flatten_updateFirst_perm_remove_first
            (fun w => w.tag == scr.workspace_tag)
            (fun w => w.remove_window st.focus) Workspace.visible_ids st.focus
            s.workspaces srcW hfsrc
            (Workspace.visible_ids_remove_window srcW st.focus hx_mem)
          have htags2 := updateFirstE_map_eq (fun w => w.tag == t)
            (fun w => w.add_window st.focus) Workspace.tag
            (fun a b _ hab => Workspace.tag_add_window a b st.focus hab)
            _ ws2 hup
          have hex2 : ∃ w ∈ updateFirst (fun w => w.tag == scr.workspace_tag)
              (fun w => w.remove_window st.focus) s.workspaces,
              (w.tag == t) = true :=
            exists_tag_of_map_tag_eq _ s.workspaces t htags1
              (by simpa using List.any_eq_true.1 hany)
          have hcons := flatten_updateFirstE_perm_cons (fun w => w.tag == t)
            (fun w => w.add_window st.focus) Workspace.visible_ids st.focus
            (fun a b _ hab => Workspace.visible_ids_add_window a b st.focus hab)
            _ ws2 hup hex2
          have hflat : ((ws2.map Workspace.visible_ids).flatten).Perm s.allStackIds :=
            hcons.trans hrem
          exact invariant_same s ws2 s.floating hInv (htags2.trans htags1)
            (List.Perm.append_right s.floatingIds hflat)
  · cases h

theorem handle_invariant (s : WindowManagerState) (e : Event)
    (s2 : WindowManagerState) (effs : List Effect) (hInv : Invariant s)
    (h : s.handle e = .ok (s2, effs)) : Invariant s2 := by
  cases e with
  | WindowCreated x pref => exact handleWindowCreated_invariant s x pref hInv s2 effs h
  | WindowDestroyed x => exact handleWindowDestroyed_invariant s x hInv s2 effs h
  | FocusNext =>
    exact handleStackOp_invariant s _ _
      (fun st => by rw [Stack.toList_focus_next]) hInv s2 effs h
  | FocusPrev =>
    exact handleStackOp_invariant s _ _
      (fun st => by rw [Stack.toList_focus_prev]) hInv s2 effs h
  | SwapUp =>
    exact handleStackOp_invariant s _ _ Stack.toList_swap_focus_prev hInv s2 effs h
  | SwapDown =>
    exact handleStackOp_invariant s _ _ Stack.toList_swap_focus_next hInv s2 effs h
  | MoveWindowToWorkspace t =>
    exact handleMoveWindowToWorkspace_invariant s t hInv s2 effs h
  | CycleLayoutNext =>
    exact handleCycleLayout_invariant s Workspace.next_layout
      (fun w => rfl) (fun w => rfl) hInv s2 effs h
  | CycleLayoutPrev =>
    exact handleCycleLayout_invariant s Workspace.prev_layout
      (fun w => rfl) (fun w => rfl) hInv s2 effs h
  | ScreenConfigurationChanged ns =>
    exact handleScreenConfigurationChanged_invariant s ns hInv s2 effs h
  | ToggleFloating x => exact handleToggleFloating_invariant s x hInv s2 effs h
  | Unrecognized => cases h; exact hInv

end WindowManagerState

theorem next_layout_iterate (ws : Workspace)
    (h : ws.active_layout_index < ws.layouts.length) (n : Nat) :
    Workspace.next_layout^[n] ws =
      { ws with active_layout_index :=
          (ws.active_layout_index + n) % ws.layouts.length } := by
  induction n with
  | zero =>
    rw [Function.iterate_zero_apply, Nat.add_zero, Nat.mod_eq_of_lt h]
  | succ n ih =>
    rw [Function.iterate_succ_apply', ih]
    show { ws with active_layout_index :=
      ((ws.active_layout_index + n) % ws.layouts.length + 1) % ws.layouts.length } = _
    rw [Nat.mod_add_mod]
    rfl

/-- Modelled from the spec and the rustdoc index: the `custom_error` construction
helper, which quickly creates an `Error::Custom` value. -/
def custom_error (msg : String) : Error :=
  Error.Custom msg

/-- Modelled from the spec: whether an error value is one of the four kinds named
in §7 of the specification. -/
def isSpecifiedErrorKind : Error → Bool
  | .DuplicateWindow => true
  | .UnknownWindow => true
  | .UnknownTag => true
  | .InvalidLayoutIndex => true
  | .Custom _ => false

/-- A simple full-screen tiling layout used by concrete witness states. -/
def fullLayout : Layout :=
  ⟨"full", fun r ids => ids.map (fun i => (i, r))⟩

/-- A second layout used by concrete witness states. -/
def halfLayout : Layout :=
  ⟨"half", fun r ids => ids.map (fun i => (i, ⟨r.x, r.y, r.width / 2, r.height⟩))⟩

/-- A concrete workspace used by concrete witness states. -/
def wsA : Workspace :=
  ⟨"1", some ⟨[], 5, []⟩, [fullLayout], 0⟩

/-- A concrete single-screen state used by concrete witness states. -/
def stateA : WindowManagerState :=
  ⟨[wsA], [⟨0, ⟨0, 0, 1920, 1080⟩, "1"⟩], [], [5]⟩

/-- A concrete screenless state used by concrete witness states. -/
def stateB : WindowManagerState :=
  ⟨[wsA], [], [], [5]⟩

/-- A concrete two-layout workspace used by concrete witness states. -/
def wsC7 : Workspace :=
  ⟨"1", some ⟨[], 5, []⟩, [fullLayout, halfLayout], 0⟩

/-- C1: the transition function is total over states and events — it is a total
Lean function — and an unrecognized or no-op event (here: the `Unrecognized`
event, and `FocusNext` when there is no screen to act on) yields exactly
`(state, [])` with no error and the state unchanged. -/
theorem transition_total_noop_events (s : WindowManagerState) :
    s.transition Event.Unrecognized = (s, [], none) ∧
    (s.screens = [] → s.transition Event.FocusNext = (s, [], none)) := by
  constructor
  · rfl
  · intro h
    simp [WindowManagerState.transition, WindowManagerState.handle,
      WindowManagerState.handleStackOp, WindowManagerState.focusedScreen, h]

theorem transition_total_noop_events_witness :
    stateB.transition Event.Unrecognized = (stateB, [], none) ∧
    stateB.transition Event.FocusNext = (stateB, [], none) :=
  ⟨(transition_total_noop_events stateB).1,
   (transition_total_noop_events stateB).2 rfl⟩

/-- C2: every transition preserves the WindowManagerState invariant — (a) ids in
Stacks or floating are known and `known_windows` has no duplicates, (b) an id is
in at most one Stack and never both in a Stack and floating, (c) every screen's
tag names an existing workspace, (d) a tag is displayed on at most one screen —
so the invariant holds in every state reachable from an invariant-satisfying
state. -/
theorem transition_preserves_invariant (s : WindowManagerState) (e : Event)
    (hInv : WindowManagerState.Invariant s) :
    WindowManagerState.Invariant (s.transition e).1 := by
  unfold WindowManagerState.transition
  cases hh : s.handle e with
  | ok p =>
    rcases p with ⟨s2, effs⟩
    exact WindowManagerState.handle_invariant s e s2 effs hInv hh
  | error err => exact hInv

theorem transition_preserves_invariant_witness :
    WindowManagerState.Invariant
      ((stateA.transition (Event.WindowCreated 7 none)).1) :=
  transition_preserves_invariant stateA (Event.WindowCreated 7 none)
    (by unfold WindowManagerState.Invariant; decide)

/-- C3: error atomicity — whenever `transition(s, e)` signals any error, the
state returned alongside the error is exactly the unchanged prior state `s` and
the effect list is empty; the engine never returns a partially-mutated state. -/
theorem transition_error_atomic (s : WindowManagerState) (e : Event) (err : Error)
    (h : (s.transition e).2.2 = some err) :
    (s.transition e).1 = s ∧ (s.transition e).2.1 = [] := by
  unfold WindowManagerState.transition at h ⊢
  cases hh : s.handle e with
  | ok p =>
    rcases p with ⟨s2, effs⟩
    rw [hh] at h
    cases h
  | error e2 =>
    exact ⟨rfl, rfl⟩

theorem transition_error_atomic_witness :
    (stateA.transition (Event.WindowCreated 5 none)).2.2 = some Error.DuplicateWindow ∧
    ((stateA.transition (Event.WindowCreated 5 none)).1 = stateA ∧
     (stateA.transition (Event.WindowCreated 5 none)).2.1 = []) :=
  ⟨by decide,
   transition_error_atomic stateA (Event.WindowCreated 5 none)
     Error.DuplicateWindow (by decide)⟩

/-- C4: a Stack is never empty — the linearization of any Stack value is
non-empty, and `remove` yields `none` (destroying the Stack, rather than ever
producing an empty one) exactly when the removed element was the sole element. -/
theorem stack_never_empty (s : Stack) (x : Xid) :
    s.toList ≠ [] ∧
    (s.remove x = none ↔ s.up = [] ∧ s.down = [] ∧ s.focus = x) :=
  ⟨Stack.toList_ne_nil s, Stack.remove_eq_none_iff s x⟩

theorem stack_never_empty_witness :
    (⟨[], 5, []⟩ : Stack).toList ≠ [] ∧
    ((⟨[], 5, []⟩ : Stack).remove 5 = none ↔
      (⟨[], 5, []⟩ : Stack).up = [] ∧ (⟨[], 5, []⟩ : Stack).down = [] ∧
      (⟨[], 5, []⟩ : Stack).focus = 5) :=
  stack_never_empty ⟨[], 5, []⟩ 5

/-- C5: `Stack.insert(s, x)` fails with `DuplicateWindow` exactly when `x` is
already present anywhere in `s` (in `up`, `focus`, or `down`), and otherwise
returns the Stack in which `x` is the focus and the previous focus has been
pushed onto `down`. -/
theorem stack_insert_spec (s : Stack) (x : Xid) :
    (s.insert x = .error .DuplicateWindow ↔ x ∈ s.toList) ∧
    (x ∉ s.toList → s.insert x = .ok ⟨s.up, x, s.focus :: s.down⟩) := by
  refine ⟨⟨?_, Stack.insert_of_mem s x⟩, Stack.insert_of_not_mem s x⟩
  intro he
  by_contra hnm
  rw [Stack.insert_of_not_mem s x hnm] at he
  cases he

theorem stack_insert_spec_witness :
    ((⟨[], 1, [2]⟩ : Stack).insert 2 = .error .DuplicateWindow) ∧
    ((⟨[], 1, [2]⟩ : Stack).insert 3 = .ok ⟨[], 3, [1, 2]⟩) :=
  ⟨(stack_insert_spec ⟨[], 1, [2]⟩ 2).1.2 (by decide),
   (stack_insert_spec ⟨[], 1, [2]⟩ 3).2 (by decide)⟩

/-- C6: `Stack.remove(s, x)` removes `x`: it is the identity when `x` is absent;
when present, the resulting linearization is that of `s` with one occurrence of
`x` removed; removing the focus promotes the nearest element of `down`, else the
nearest element of `up`, and yields `none` when both are empty. -/
theorem stack_remove_spec (s : Stack) (x : Xid) :
    (x ∉ s.toList → s.remove x = some s) ∧
    (x ∈ s.toList → s.toList.Perm (x :: Stack.optToList (s.remove x))) ∧
    (∀ d ds, s.down = d :: ds → s.remove s.focus = some ⟨s.up, d, ds⟩) ∧
    (∀ u us, s.down = [] → s.up = u :: us → s.remove s.focus = some ⟨us, u, []⟩) ∧
    (s.down = [] → s.up = [] → s.remove s.focus = none) := by
  refine ⟨Stack.remove_of_not_mem s x, Stack.remove_perm_of_mem s x, ?_, ?_, ?_⟩
  · intro d ds hd
    simp [Stack.remove, hd]
  · intro u us hd hu
    simp [Stack.remove, hd, hu]
  · intro hd hu
    simp [Stack.remove, hd, hu]

theorem stack_remove_spec_witness :
    ((⟨[1], 2, [3]⟩ : Stack).remove 9 = some ⟨[1], 2, [3]⟩) ∧
    ((⟨[1], 2, [3]⟩ : Stack).toList.Perm
      (3 :: Stack.optToList ((⟨[1], 2, [3]⟩ : Stack).remove 3))) ∧
    ((⟨[1], 2, [3]⟩ : Stack).remove 2 = some ⟨[1], 3, []⟩) ∧
    ((⟨[1], 2, []⟩ : Stack).remove 2 = some ⟨[], 1, []⟩) ∧
    ((⟨[], 2, []⟩ : Stack).remove 2 = none) :=
  ⟨(stack_remove_spec ⟨[1], 2, [3]⟩ 9).1 (by decide),
   (stack_remove_spec ⟨[1], 2, [3]⟩ 3).2.1 (by decide),
   (stack_remove_spec ⟨[1], 2, [3]⟩ 0).2.2.1 3 [] rfl,
   (stack_remove_spec ⟨[1], 2, []⟩ 0).2.2.2.1 1 [] rfl rfl,
   (stack_remove_spec ⟨[], 2, []⟩ 0).2.2.2.2 rfl rfl⟩

/-- C7: layout-cycling round trip — applying the forward layout-cycle operation
N times, where N is the number of layouts on the workspace, returns
`active_layout_index` to its original value and yields an identical recomputed
placement set. -/
theorem layout_cycle_round_trip (ws : Workspace) (r : Rect)
    (h : ws.active_layout_index < ws.layouts.length) :
    (Workspace.next_layout^[ws.layouts.length] ws).active_layout_index =
      ws.active_layout_index ∧
    (Workspace.next_layout^[ws.layouts.length] ws).recompute r = ws.recompute r := by
  have hsel : Workspace.next_layout^[ws.layouts.length] ws = ws := by
    rw [next_layout_iterate ws h, Nat.add_mod_right, Nat.mod_eq_of_lt h]
  exact ⟨by rw [hsel], by rw [hsel]⟩

theorem layout_cycle_round_trip_witness :
    (Workspace.next_layout^[wsC7.layouts.length] wsC7).active_layout_index =
      wsC7.active_layout_index ∧
    (Workspace.next_layout^[wsC7.layouts.length] wsC7).recompute ⟨0, 0, 1920, 1080⟩ =
      wsC7.recompute ⟨0, 0, 1920, 1080⟩ :=
  layout_cycle_round_trip wsC7 ⟨0, 0, 1920, 1080⟩ (by decide)

/-- C8: frame property of layout cycling — `next_layout` and `prev_layout`
change only `active_layout_index`, leaving the workspace's Stack (membership,
order and focus), its tag, and its layout list unchanged. -/
theorem layout_cycle_frame (ws : Workspace) :
    ws.next_layout.stack = ws.stack ∧ ws.prev_layout.stack = ws.stack ∧
    ws.next_layout.tag = ws.tag ∧ ws.prev_layout.tag = ws.tag ∧
    ws.next_layout.layouts = ws.layouts ∧ ws.prev_layout.layouts = ws.layouts :=
  ⟨rfl, rfl, rfl, rfl, rfl, rfl⟩

/-- C9: `transition(s, MoveWindowToWorkspace(t))` fails with `UnknownTag` when
`t` does not name an existing Workspace in `s`, and in that case the state is
unchanged and no effects are emitted. -/
theorem move_to_unknown_tag_fails (s : WindowManagerState) (t : String)
    (h : ∀ w ∈ s.workspaces, w.tag ≠ t) :
    s.transition (Event.MoveWindowToWorkspace t) = (s, [], some Error.UnknownTag) := by
  have hany : (s.workspaces.any fun w => w.tag == t) = false := by
    rw [List.any_eq_false]
    intro w hw
    simpa using h w hw
  unfold WindowManagerState.transition WindowManagerState.handle
    WindowManagerState.handleMoveWindowToWorkspace
  simp [hany]

theorem move_to_unknown_tag_fails_witness :
    stateA.transition (Event.MoveWindowToWorkspace "2") =
      (stateA, [], some Error.UnknownTag) :=
  move_to_unknown_tag_fails stateA "2" (by decide)

/-- C10: the public error type is not limited to the four kinds named in the
spec — the `Error` type admits a user-constructible `Custom` variant, creatable
via `custom_error`, and every error value outside the four specified kinds is
such a `Custom` value. -/
theorem error_admits_custom_kind :
    custom_error "unexpected" = Error.Custom "unexpected" ∧
    isSpecifiedErrorKind (custom_error "unexpected") = false ∧
    (∀ e : Error, isSpecifiedErrorKind e = false → ∃ msg, e = Error.Custom msg) := by
  refine ⟨rfl, rfl, ?_⟩
  intro e he
  cases e with
  | DuplicateWindow => cases he
  | UnknownWindow => cases he
  | UnknownTag => cases he
  | InvalidLayoutIndex => cases he
  | Custom m => exact ⟨m, rfl⟩

theorem error_admits_custom_kind_witness :
    isSpecifiedErrorKind (Error.Custom "boom") = false ∧
    ∃ msg, Error.Custom "boom" = Error.Custom msg :=
  ⟨rfl, error_admits_custom_kind.2.2 (Error.Custom "boom") rfl⟩

end Penrose
